import Mathlib

/-!
Shallow embedding of the computational core of `src/KenoProject/Keno_Main.cpp`
(the Keno probability / expected-value program).

Machine integers are modelled as `Nat` with explicit reductions:
a `static_cast<WORD>` (16-bit) becomes `% 2 ^ 16`, `DWORD` (32-bit)
arithmetic wraps `% 2 ^ 32`, and `QWORD` (64-bit) arithmetic reduces
`% 2 ^ 64`.  The program's `double` arithmetic is modelled exactly over `ℚ`
(ideal real semantics of the written formulas).  Unsigned integer division by
zero is a hardware fault in the source, so `calcCombinations` returns
`Option Nat`, with `none` for the faulting case.
-/

namespace Keno

/-- `QWORD calcFactorial(WORD wN)` (Keno_Main.cpp, lines 101-107): recursive
factorial, `wN > 1 ? wN * calcFactorial(wN - 1) : 1`, computed in 64-bit
unsigned arithmetic (wraps modulo `2 ^ 64`, no overflow check). -/
def calcFactorial : Nat → Nat
  | n + 2 => ((n + 2) * calcFactorial (n + 1)) % 2 ^ 64
  | _ => 1

/-- `double calcPartialFactorial(WORD wN, WORD wNumTerms)` (lines 127-145):
`fResult = 1.0`, then for `i` in `0 .. wNumTerms - 1`,
`fResult = fResult * (wN - i)`; the subtraction `wN - i` is `int`
arithmetic (exact, possibly negative). -/
def calcPartialFactorial (wN wNumTerms : Nat) : ℚ :=
  (List.range wNumTerms).foldl (fun (fResult : ℚ) (i : Nat) => fResult * ((wN : ℚ) - (i : ℚ))) 1

/-- `static_cast<WORD>`: truncation to 16 bits. -/
def toWORD (n : Nat) : Nat := n % 2 ^ 16

/-- 32-bit unsigned subtraction `a - b` of `DWORD` values (wraps mod `2 ^ 32`). -/
def dwordSub (a b : Nat) : Nat := (a + (2 ^ 32 - b % 2 ^ 32)) % 2 ^ 32

/-- `DWORD calcCombinations(DWORD dwN, DWORD dwR)` (lines 165-188).  When
`dwR <= dwN`, the three factorial calls truncate their arguments to `WORD`,
the denominator product `qwRFactorial * qwDifFactorial` is 64-bit, and the
final quotient is truncated to `DWORD`; otherwise the result is `0`.
Unsigned division by zero (which happens when the 64-bit denominator product
wraps to `0`, e.g. for `66!`) is a fault, modelled as `none`. -/
def calcCombinations (dwN dwR : Nat) : Option Nat :=
  if dwR ≤ dwN then
    let qwNFactorial := calcFactorial (toWORD dwN)
    let qwRFactorial := calcFactorial (toWORD dwR)
    let qwDifFactorial := calcFactorial (toWORD (dwN - dwR))
    let qwDenominator := qwRFactorial * qwDifFactorial % 2 ^ 64
    if qwDenominator = 0 then none
    else some (qwNFactorial / qwDenominator % 2 ^ 32)
  else some 0

/-- `double calcKenoProbability(DWORD dwNumMarked, DWORD dwCaught)` (lines
206-227): `C(numMarked, caught) * P1 * P2 / P3` with
`P1 = calcPartialFactorial(20, WORD(caught))`,
`P2 = calcPartialFactorial(60, WORD(numMarked - caught))` (32-bit subtraction,
then `WORD` truncation), and `P3 = calcPartialFactorial(80, WORD(numMarked))`.
A fault in `calcCombinations` propagates. -/
def calcKenoProbability (dwNumMarked dwCaught : Nat) : Option ℚ :=
  match calcCombinations dwNumMarked dwCaught with
  | none => none
  | some dwNumCombinations =>
    let qwP1 := calcPartialFactorial 20 (toWORD dwCaught)
    let qwP2 := calcPartialFactorial 60 (toWORD (dwordSub dwNumMarked dwCaught))
    let qwP3 := calcPartialFactorial 80 (toWORD dwNumMarked)
    some ((dwNumCombinations : ℚ) * qwP1 * qwP2 / qwP3)

/-- `g_rgCatchPayOut` (lines 71-81): the fixed 9 x 9 payout table, row
`i = spotsMarked - 1`, column `j = caught - 1`. -/
def g_rgCatchPayOut : List (List ℚ) :=
  [[3, 0, 0, 0, 0, 0, 0, 0, 0],
   [0, 12, 0, 0, 0, 0, 0, 0, 0],
   [0, 1, 42, 0, 0, 0, 0, 0, 0],
   [0, 1, 3, 120, 0, 0, 0, 0, 0],
   [0, 0, 1, 9, 800, 0, 0, 0, 0],
   [0, 0, 1, 4, 88, 1500, 0, 0, 0],
   [0, 0, 0, 2, 20, 350, 700, 0, 0],
   [0, 0, 0, 0, 9, 90, 1500, 20000, 0],
   [0, 0, 0, 0, 4, 43, 3000, 4000, 25000]]

/-- `g_rgCatchPayOut[i][j]` as a total lookup. -/
def payoutAt (i j : Nat) : ℚ := (g_rgCatchPayOut.getD i []).getD j 0

/-- `g_rgProbability[i][j]` after the driving loop of `_tmain` (lines
476-497): cell `(i, j)` is written with `calcKenoProbability(i + 1, j)`
exactly when `i + 1 >= j`, and otherwise keeps the zero initialisation of
line 65. -/
def g_rgProbability (i j : Nat) : ℚ :=
  if i + 1 ≥ j then (calcKenoProbability (i + 1) j).getD 0 else 0

/-- `g_rgExpectedValue[i]` after the expected-value loop of `_tmain` (lines
537-559): for `j` in `0..8`, when `g_rgCatchPayOut[i][j] > 0`, accumulate
`g_rgProbability[i][j + 1] * payout / (i + 2)`. -/
def g_rgExpectedValue (i : Nat) : ℚ :=
  (List.range 9).foldl
    (fun acc j =>
      if payoutAt i j > 0 then acc + g_rgProbability i (j + 1) * payoutAt i j / ((i : ℚ) + 2)
      else acc) 0

/-! ### Helper lemmas -/

/-- The loop of `calcPartialFactorial` computes the product of the terms
`wN - i` for `i < wNumTerms`, with exact signed arithmetic. -/
lemma calcPartialFactorial_eq_prod (n : Nat) :
    ∀ k : Nat, calcPartialFactorial n k = ∏ i ∈ Finset.range k, ((n : ℚ) - (i : ℚ)) := by
  intro k
  induction k with
  | zero => rfl
  | succ k ih =>
    unfold calcPartialFactorial at *
    rw [List.range_succ, List.foldl_append, ih, Finset.prod_range_succ]
    rfl

/-- The signed descending product equals the natural descending factorial
(both vanish as soon as the number of terms exceeds the base). -/
lemma prod_sub_eq_descFactorial (n : Nat) :
    ∀ k : Nat, (∏ i ∈ Finset.range k, ((n : ℚ) - (i : ℚ))) = (Nat.descFactorial n k : ℚ) := by
  intro k
  induction k with
  | zero => simp
  | succ k ih =>
    rw [Finset.prod_range_succ, ih, Nat.descFactorial_succ]
    by_cases h : k ≤ n
    · rw [Nat.cast_mul, Nat.cast_sub h]
      ring
    · have h0 : Nat.descFactorial n k = 0 :=
        Nat.descFactorial_eq_zero_iff_lt.mpr (by omega)
      simp [h0]

lemma calcPartialFactorial_eq_descFactorial (n k : Nat) :
    calcPartialFactorial n k = (Nat.descFactorial n k : ℚ) := by
  rw [calcPartialFactorial_eq_prod, prod_sub_eq_descFactorial]

/-- For arguments at most 20, the 64-bit factorial never wraps and agrees
with the mathematical factorial. -/
lemma calcFactorial_small : ∀ n : Fin 21, calcFactorial n.1 = Nat.factorial n.1 := by
  decide

lemma calcFactorial_eq_factorial {n : Nat} (h : n ≤ 20) :
    calcFactorial n = Nat.factorial n :=
  calcFactorial_small ⟨n, by omega⟩

set_option maxRecDepth 4000 in
/-- On the pipeline's argument range, `calcCombinations` returns exactly the
binomial coefficient. -/
lemma calcCombinations_small :
    ∀ p : Fin 21 × Fin 21, p.2.1 ≤ p.1.1 →
      calcCombinations p.1.1 p.2.1 = some (Nat.choose p.1.1 p.2.1) := by
  decide

lemma calcCombinations_eq_choose {n r : Nat} (h1 : r ≤ n) (h2 : n ≤ 20) :
    calcCombinations n r = some (Nat.choose n r) :=
  calcCombinations_small (⟨n, by omega⟩, ⟨r, by omega⟩) h1

/-- The guard of `calcCombinations` short-circuits when `r > n`. -/
lemma calcCombinations_of_gt {n r : Nat} (h : n < r) :
    calcCombinations n r = some 0 := by
  unfold calcCombinations
  rw [if_neg (by omega)]

lemma toWORD_eq_of_le {n : Nat} (h : n ≤ 20) : toWORD n = n := by
  unfold toWORD
  omega

/-- On in-range values the 32-bit subtraction is the plain one. -/
lemma dwordSub_eq_sub {a b : Nat} (hb : b ≤ a) (ha : a ≤ 20) : dwordSub a b = a - b := by
  unfold dwordSub
  omega

/-! ### Claims -/

/-- C8: `calcPartialFactorial(n, numTerms)` returns the product of the
`numTerms` highest consecutive descending terms starting at `n`, that is
`n * (n - 1) * ... * (n - numTerms + 1)` (equivalently the descending
factorial), and for `numTerms = 0` it returns `1.0` immediately (the empty
product), for any `n`. -/
theorem calcPartialFactorial_correct (n k : Nat) :
    calcPartialFactorial n k = ∏ i ∈ Finset.range k, ((n : ℚ) - (i : ℚ)) ∧
    calcPartialFactorial n k = (Nat.descFactorial n k : ℚ) ∧
    calcPartialFactorial n 0 = 1 :=
  ⟨calcPartialFactorial_eq_prod n k, calcPartialFactorial_eq_descFactorial n k, rfl⟩

/-- C7: for every `n` and every `r` with `r > n`, `calcCombinations(n, r)`
returns `0`: the guard short-circuits (no factorial is computed and no
fault can occur). -/
theorem calcCombinations_zero_of_r_gt_n (n r : Nat) (h : n < r) :
    calcCombinations n r = some 0 :=
  calcCombinations_of_gt h

theorem calcCombinations_zero_of_r_gt_n_witness :
    3 < 5 ∧ calcCombinations 3 5 = some 0 :=
  ⟨by decide, calcCombinations_zero_of_r_gt_n 3 5 (by decide)⟩

/-- C5: for `r ≤ n ≤ 20`, `calcCombinations(n, r)` returns exactly the
binomial coefficient `C(n, r) = n! / (r! * (n - r)!)`, with no overflow or
fault; in particular `calcCombinations(9, 5) = 126`. -/
theorem calcCombinations_binomial (n r : Nat) (h1 : r ≤ n) (h2 : n ≤ 20) :
    calcCombinations n r = some (Nat.choose n r) :=
  calcCombinations_eq_choose h1 h2

theorem calcCombinations_binomial_witness :
    5 ≤ 9 ∧ 9 ≤ 20 ∧ calcCombinations 9 5 = some 126 :=
  ⟨by decide, by decide,
    (calcCombinations_binomial 9 5 (by decide) (by decide)).trans (by decide)⟩

set_option maxRecDepth 4000 in
/-- C6 counterexample: at `n = 66` the claim fails. `66!` is divisible by
`2 ^ 64`, so the 64-bit denominator product `r! * (n - r)!` wraps to `0` and
the unsigned division faults (modelled as `none`) instead of returning `1`. -/
theorem calcCombinations_identity_counterexample :
    calcCombinations 66 0 ≠ some 1 ∧ calcCombinations 66 66 ≠ some 1 ∧
    calcCombinations 66 0 = none ∧ calcCombinations 66 66 = none := by
  decide

set_option maxRecDepth 4000 in
lemma calcCombinations_identity_small :
    ∀ m : Fin 66, calcCombinations m.1 0 = some 1 ∧ calcCombinations m.1 m.1 = some 1 := by
  decide

/-- C6 (amended): `calcCombinations(n, 0) = 1` and `calcCombinations(n, n) = 1`
for every `n ≤ 65`; from `n = 66` the 64-bit denominator factorial product
wraps to `0` and the division faults. -/
theorem calcCombinations_identity_amended (n : Nat) (h : n ≤ 65) :
    calcCombinations n 0 = some 1 ∧ calcCombinations n n = some 1 :=
  calcCombinations_identity_small ⟨n, by omega⟩

theorem calcCombinations_identity_amended_witness :
    65 ≤ 65 ∧ calcCombinations 65 0 = some 1 ∧ calcCombinations 65 65 = some 1 :=
  ⟨by decide, calcCombinations_identity_amended 65 (by decide)⟩

/-- C9: on the pipeline's argument range (`1 ≤ m ≤ 20`, `c ≤ m`) every
factorial argument is at most 20, each 64-bit factorial equals the exact
mathematical factorial (no wraparound), the denominator product
`r! * (n - r)!` is positive and below `2 ^ 64`, and `calcCombinations`
yields the exact binomial coefficient (the division never divides by
zero). -/
theorem pipeline_factorials_exact (m c : Nat) (h1 : 1 ≤ m) (h2 : m ≤ 20) (hc : c ≤ m) :
    toWORD m ≤ 20 ∧ toWORD c ≤ 20 ∧ toWORD (m - c) ≤ 20 ∧
    calcFactorial (toWORD m) = Nat.factorial m ∧
    calcFactorial (toWORD c) = Nat.factorial c ∧
    calcFactorial (toWORD (m - c)) = Nat.factorial (m - c) ∧
    0 < Nat.factorial c * Nat.factorial (m - c) ∧
    Nat.factorial c * Nat.factorial (m - c) < 2 ^ 64 ∧
    calcCombinations m c = some (Nat.choose m c) := by
  have hm : toWORD m = m := toWORD_eq_of_le h2
  have hcw : toWORD c = c := toWORD_eq_of_le (by omega)
  have hmc : toWORD (m - c) = m - c := toWORD_eq_of_le (by omega)
  have hdvd : Nat.factorial c * Nat.factorial (m - c) ∣ Nat.factorial m :=
    Nat.factorial_mul_factorial_dvd_factorial hc
  have hle : Nat.factorial c * Nat.factorial (m - c) ≤ Nat.factorial m :=
    Nat.le_of_dvd (Nat.factorial_pos m) hdvd
  have h20 : Nat.factorial m ≤ Nat.factorial 20 := Nat.factorial_le h2
  have hbound : Nat.factorial 20 < 2 ^ 64 := by decide
  refine ⟨by omega, by omega, by omega, ?_, ?_, ?_, ?_, by omega, ?_⟩
  · rw [hm]; exact calcFactorial_eq_factorial h2
  · rw [hcw]; exact calcFactorial_eq_factorial (by omega)
  · rw [hmc]; exact calcFactorial_eq_factorial (by omega)
  · exact Nat.mul_pos (Nat.factorial_pos c) (Nat.factorial_pos (m - c))
  · exact calcCombinations_eq_choose hc h2

theorem pipeline_factorials_exact_witness :
    (1 ≤ 9 ∧ 9 ≤ 20 ∧ 5 ≤ 9) ∧
    (toWORD 9 ≤ 20 ∧ toWORD 5 ≤ 20 ∧ toWORD (9 - 5) ≤ 20 ∧
      calcFactorial (toWORD 9) = Nat.factorial 9 ∧
      calcFactorial (toWORD 5) = Nat.factorial 5 ∧
      calcFactorial (toWORD (9 - 5)) = Nat.factorial (9 - 5) ∧
      0 < Nat.factorial 5 * Nat.factorial (9 - 5) ∧
      Nat.factorial 5 * Nat.factorial (9 - 5) < 2 ^ 64 ∧
      calcCombinations 9 5 = some (Nat.choose 9 5)) :=
  ⟨⟨by decide, by decide, by decide⟩,
    pipeline_factorials_exact 9 5 (by decide) (by decide) (by decide)⟩

/-- C3: for `m` in 1..20 and `c` in `m + 1 .. 20`, the final probability
matrix entry at row `m - 1`, column `c` is exactly `0`: the driving loop's
guard `iNumSpotsMarked >= j` is false there, so the formula is never invoked
and the cell keeps its zero initialisation. -/
theorem probability_zero_of_caught_gt_marked (m c : Nat) (h1 : 1 ≤ m) (h2 : m ≤ 20)
    (h3 : m < c) (h4 : c ≤ 20) :
    g_rgProbability (m - 1) c = 0 := by
  unfold g_rgProbability
  rw [if_neg (by omega)]

theorem probability_zero_of_caught_gt_marked_witness :
    (1 ≤ 1 ∧ 1 ≤ 20 ∧ 1 < 2 ∧ 2 ≤ 20) ∧ g_rgProbability 0 2 = 0 :=
  ⟨⟨by decide, by decide, by decide, by decide⟩,
    probability_zero_of_caught_gt_marked 1 2 (by decide) (by decide) (by decide) (by decide)⟩

/-- On the pipeline range, `calcKenoProbability` is the literal source
formula with exact combinatorial values substituted. -/
lemma calcKenoProbability_eq_formula {m c : Nat} (h1 : 1 ≤ m) (h2 : m ≤ 20) (hc : c ≤ m) :
    calcKenoProbability m c =
      some ((Nat.choose m c : ℚ) * (Nat.descFactorial 20 c : ℚ) *
        (Nat.descFactorial 60 (m - c) : ℚ) / (Nat.descFactorial 80 m : ℚ)) := by
  have hcomb := calcCombinations_eq_choose hc h2
  simp only [calcKenoProbability, hcomb]
  rw [toWORD_eq_of_le (le_trans hc h2), dwordSub_eq_sub hc h2,
    toWORD_eq_of_le (by omega : m - c ≤ 20), toWORD_eq_of_le h2,
    calcPartialFactorial_eq_descFactorial, calcPartialFactorial_eq_descFactorial,
    calcPartialFactorial_eq_descFactorial]

/-- The source formula equals the canonical hypergeometric expression. -/
lemma keno_hypergeometric {m c : Nat} (h1 : 1 ≤ m) (h2 : m ≤ 20) (hc : c ≤ m) :
    (Nat.choose m c : ℚ) * (Nat.descFactorial 20 c : ℚ) *
        (Nat.descFactorial 60 (m - c) : ℚ) / (Nat.descFactorial 80 m : ℚ) =
      (Nat.choose 20 c : ℚ) * (Nat.choose 60 (m - c) : ℚ) / (Nat.choose 80 m : ℚ) := by
  have e20 : Nat.descFactorial 20 c = Nat.factorial c * Nat.choose 20 c :=
    Nat.descFactorial_eq_factorial_mul_choose 20 c
  have e60 : Nat.descFactorial 60 (m - c) = Nat.factorial (m - c) * Nat.choose 60 (m - c) :=
    Nat.descFactorial_eq_factorial_mul_choose 60 (m - c)
  have e80 : Nat.descFactorial 80 m = Nat.factorial m * Nat.choose 80 m :=
    Nat.descFactorial_eq_factorial_mul_choose 80 m
  have key : Nat.choose m c * Nat.factorial c * Nat.factorial (m - c) = Nat.factorial m :=
    Nat.choose_mul_factorial_mul_factorial hc
  have hfpos : (0 : ℚ) < (Nat.factorial m : ℚ) := by exact_mod_cast Nat.factorial_pos m
  have hcpos : (0 : ℚ) < (Nat.choose 80 m : ℚ) := by
    exact_mod_cast Nat.choose_pos (show m ≤ 80 by omega)
  have keyQ : (Nat.choose m c : ℚ) * (Nat.factorial c : ℚ) * (Nat.factorial (m - c) : ℚ) =
      (Nat.factorial m : ℚ) := by exact_mod_cast key
  rw [e20, e60, e80]
  push_cast
  rw [div_eq_div_iff (by nlinarith) (by nlinarith)]
  linear_combination
    ((Nat.choose 20 c : ℚ) * (Nat.choose 60 (m - c) : ℚ) * (Nat.choose 80 m : ℚ)) * keyQ

/-- C1: for `numMarked` in 1..20 and `caught` in 0..numMarked,
`calcKenoProbability(numMarked, caught)` returns
`combinations(numMarked, caught) * partialFactorial(20, caught) *
partialFactorial(60, numMarked - caught) / partialFactorial(80, numMarked)`,
which is the hypergeometric probability of catching exactly `caught` marked
numbers (population 80, 20 drawn balls, sample size `numMarked`). -/
theorem calcKenoProbability_correct (m c : Nat) (h1 : 1 ≤ m) (h2 : m ≤ 20) (hc : c ≤ m) :
    calcKenoProbability m c =
      some ((Nat.choose m c : ℚ) * (Nat.descFactorial 20 c : ℚ) *
        (Nat.descFactorial 60 (m - c) : ℚ) / (Nat.descFactorial 80 m : ℚ)) ∧
    calcKenoProbability m c =
      some ((Nat.choose 20 c : ℚ) * (Nat.choose 60 (m - c) : ℚ) / (Nat.choose 80 m : ℚ)) := by
  refine ⟨calcKenoProbability_eq_formula h1 h2 hc, ?_⟩
  rw [calcKenoProbability_eq_formula h1 h2 hc, keno_hypergeometric h1 h2 hc]

theorem calcKenoProbability_correct_witness :
    (1 ≤ 9 ∧ 9 ≤ 20 ∧ 5 ≤ 9) ∧
    (calcKenoProbability 9 5 =
        some ((Nat.choose 9 5 : ℚ) * (Nat.descFactorial 20 5 : ℚ) *
          (Nat.descFactorial 60 (9 - 5) : ℚ) / (Nat.descFactorial 80 9 : ℚ)) ∧
      calcKenoProbability 9 5 =
        some ((Nat.choose 20 5 : ℚ) * (Nat.choose 60 (9 - 5) : ℚ) / (Nat.choose 80 9 : ℚ))) :=
  ⟨⟨by decide, by decide, by decide⟩,
    calcKenoProbability_correct 9 5 (by decide) (by decide) (by decide)⟩

/-- C10: for `numMarked ≤ 20` and `caught ≤ 20` with `caught > numMarked`
(calls the driving loop never makes), `calcKenoProbability` still returns
exactly `0`: the combination count is `0` by the guard, the 32-bit
subtraction `numMarked - caught` wraps and is truncated to a 16-bit term
count of at least 65516, and that partial factorial of base 60 passes
through a zero factor, so the product is a finite `0`. -/
theorem calcKenoProbability_underflow_zero (m c : Nat) (h2 : m ≤ 20) (h4 : c ≤ 20)
    (h3 : m < c) :
    calcKenoProbability m c = some 0 ∧
    calcCombinations m c = some 0 ∧
    65516 ≤ toWORD (dwordSub m c) ∧
    calcPartialFactorial 60 (toWORD (dwordSub m c)) = 0 := by
  have hcomb := calcCombinations_of_gt h3
  have hterm : 65516 ≤ toWORD (dwordSub m c) := by
    unfold toWORD dwordSub
    omega
  have hgt : 60 < toWORD (dwordSub m c) := by omega
  have hp2 : calcPartialFactorial 60 (toWORD (dwordSub m c)) = 0 := by
    rw [calcPartialFactorial_eq_descFactorial, Nat.descFactorial_eq_zero_iff_lt.mpr hgt]
    exact Nat.cast_zero
  refine ⟨?_, hcomb, hterm, hp2⟩
  simp only [calcKenoProbability, hcomb, hp2, Nat.cast_zero, zero_mul, mul_zero, zero_div]

theorem calcKenoProbability_underflow_zero_witness :
    (5 ≤ 20 ∧ 10 ≤ 20 ∧ 5 < 10) ∧
    (calcKenoProbability 5 10 = some 0 ∧
      calcCombinations 5 10 = some 0 ∧
      65516 ≤ toWORD (dwordSub 5 10) ∧
      calcPartialFactorial 60 (toWORD (dwordSub 5 10)) = 0) :=
  ⟨⟨by decide, by decide, by decide⟩,
    calcKenoProbability_underflow_zero 5 10 (by decide) (by decide) (by decide)⟩

/-- A computed matrix cell is the canonical hypergeometric probability. -/
lemma g_rgProbability_eq_hypergeometric {m c : Nat} (h1 : 1 ≤ m) (h2 : m ≤ 20) (hc : c ≤ m) :
    g_rgProbability (m - 1) c =
      (Nat.choose 20 c : ℚ) * (Nat.choose 60 (m - c) : ℚ) / (Nat.choose 80 m : ℚ) := by
  simp only [g_rgProbability]
  rw [show m - 1 + 1 = m from by omega, if_pos (show m ≥ c from hc),
    calcKenoProbability_eq_formula h1 h2 hc, Option.getD_some, keno_hypergeometric h1 h2 hc]

/-- Vandermonde convolution, specialised to 20 + 60 = 80. -/
lemma vandermonde_keno (m : Nat) :
    (∑ c ∈ Finset.range (m + 1), Nat.choose 20 c * Nat.choose 60 (m - c)) = Nat.choose 80 m := by
  have h := Nat.add_choose_eq 20 60 m
  rw [show (20 + 60 : ℕ) = 80 from rfl] at h
  rw [h, Finset.Nat.sum_antidiagonal_eq_sum_range_succ_mk]

/-- C4: for every `m` in 1..20, the row sum over `caught` in `0..m` of the
probability matrix is 1 to within `1e-9` (in the exact rational model it is
exactly 1). -/
theorem probability_row_sums_to_one (m : Nat) (h1 : 1 ≤ m) (h2 : m ≤ 20) :
    |(∑ c ∈ Finset.range (m + 1), g_rgProbability (m - 1) c) - 1| ≤ 1 / 1000000000 := by
  have hcongr : (∑ c ∈ Finset.range (m + 1), g_rgProbability (m - 1) c) =
      ∑ c ∈ Finset.range (m + 1),
        (Nat.choose 20 c : ℚ) * (Nat.choose 60 (m - c) : ℚ) / (Nat.choose 80 m : ℚ) :=
    Finset.sum_congr rfl fun c hcm =>
      g_rgProbability_eq_hypergeometric h1 h2 (by
        have := Finset.mem_range.mp hcm
        omega)
  have hnum : (∑ c ∈ Finset.range (m + 1),
      (Nat.choose 20 c : ℚ) * (Nat.choose 60 (m - c) : ℚ)) = (Nat.choose 80 m : ℚ) := by
    exact_mod_cast vandermonde_keno m
  have hne : (Nat.choose 80 m : ℚ) ≠ 0 :=
    Nat.cast_ne_zero.mpr (Nat.choose_pos (show m ≤ 80 by omega)).ne'
  have hsum : (∑ c ∈ Finset.range (m + 1), g_rgProbability (m - 1) c) = 1 := by
    rw [hcongr, ← Finset.sum_div, hnum, div_self hne]
  rw [hsum]
  norm_num

theorem probability_row_sums_to_one_witness :
    (1 ≤ 5 ∧ 5 ≤ 20) ∧
    |(∑ c ∈ Finset.range (5 + 1), g_rgProbability (5 - 1) c) - 1| ≤ 1 / 1000000000 :=
  ⟨⟨by decide, by decide⟩, probability_row_sums_to_one 5 (by decide) (by decide)⟩

/-- Every entry of the payout table is nonnegative. -/
lemma getD_nonneg : ∀ (l : List ℚ), (∀ x ∈ l, 0 ≤ x) → ∀ j : Nat, 0 ≤ l.getD j 0
  | [], _, _ => by simp
  | x :: _, h, 0 => by simpa using h x (by simp)
  | _ :: xs, h, j + 1 => by
    simpa using getD_nonneg xs (fun y hy => h y (by simp [hy])) j

lemma payoutAt_nonneg (i j : Nat) : 0 ≤ payoutAt i j := by
  unfold payoutAt
  apply getD_nonneg
  intro x hx
  have hrow : ∀ l ∈ g_rgCatchPayOut, ∀ y ∈ l, (0 : ℚ) ≤ y := by
    intro l hl
    fin_cases hl <;> (intro y hy; fin_cases hy <;> norm_num)
  by_cases hi : i < g_rgCatchPayOut.length
  · exact hrow _ (List.getD_eq_getElem _ _ hi ▸ List.getElem_mem hi) x hx
  · rw [List.getD_eq_default _ _ (by omega)] at hx
    simp at hx

/-- The accumulation loop computes the guarded partial sums. -/
lemma foldl_payout_eq_sum (i : Nat) :
    ∀ (n : Nat) (a : ℚ),
      (List.range n).foldl
        (fun acc j =>
          if payoutAt i j > 0 then acc + g_rgProbability i (j + 1) * payoutAt i j / ((i : ℚ) + 2)
          else acc) a =
      a + ∑ j ∈ Finset.range n, g_rgProbability i (j + 1) * payoutAt i j / ((i : ℚ) + 2) := by
  intro n
  induction n with
  | zero => intro a; simp
  | succ n ih =>
    intro a
    rw [List.range_succ, List.foldl_append, ih, Finset.sum_range_succ]
    simp only [List.foldl_cons, List.foldl_nil]
    by_cases h : payoutAt i n > 0
    · rw [if_pos h]
      ring
    · rw [if_neg h, le_antisymm (not_lt.mp h) (payoutAt_nonneg i n)]
      ring

lemma g_rgExpectedValue_eq_sum (i : Nat) :
    g_rgExpectedValue i =
      ∑ j ∈ Finset.range 9, g_rgProbability i (j + 1) * payoutAt i j / ((i : ℚ) + 2) := by
  unfold g_rgExpectedValue
  rw [foldl_payout_eq_sum, zero_add]

lemma range_nine_map_succ :
    (Finset.range 9).map ⟨fun j => j + 1, fun a b h => Nat.succ_injective h⟩ = Finset.Icc 1 9 := by
  decide

/-- C2: for `spotsMarked` in 1..9, the computed expected value equals the sum
over `caught` in 1..9 of `Probability(spotsMarked, caught) *
Payout(spotsMarked, caught) / (spotsMarked + 1)`, where the probability for
payout column `caught` is read at 0-based catch index `caught` (row
`spotsMarked - 1`, column `caught`), the divisor is `spotsMarked + 1`, and
non-positive payout entries are skipped (contributing nothing). -/
theorem expectedValue_correct (s : Nat) (h1 : 1 ≤ s) (h2 : s ≤ 9) :
    g_rgExpectedValue (s - 1) =
      ∑ c ∈ Finset.Icc 1 9,
        g_rgProbability (s - 1) c * payoutAt (s - 1) (c - 1) / ((s : ℚ) + 1) := by
  rw [g_rgExpectedValue_eq_sum, ← range_nine_map_succ, Finset.sum_map]
  simp only [Function.Embedding.coeFn_mk]
  have hd : ((s - 1 : ℕ) : ℚ) + 2 = (s : ℚ) + 1 := by
    rw [Nat.cast_sub h1, Nat.cast_one]
    ring
  refine Finset.sum_congr rfl fun j hj => ?_
  rw [Nat.add_sub_cancel, hd]

theorem expectedValue_correct_witness :
    (1 ≤ 1 ∧ 1 ≤ 9) ∧
    g_rgExpectedValue 0 =
      ∑ c ∈ Finset.Icc 1 9,
        g_rgProbability 0 c * payoutAt 0 (c - 1) / (((1 : Nat) : ℚ) + 1) :=
  ⟨⟨le_refl 1, by decide⟩, expectedValue_correct 1 (le_refl 1) (by decide)⟩

end Keno
